import Mathlib

/-!
Verification of the background job lifecycle manager of the anyChangeAi
repository (`src/lib/jobManager.ts`).

The manager is an in-memory registry mapping job identifiers to job records,
with two timer-driven side effects per job: a processing-timeout timer and a
post-completion cleanup timer.  We embed it as a state machine:

* Job identifiers are natural numbers; the source generates
  `job_${crypto.randomUUID()}` strings, whose only relevant property is
  freshness, which the counter `nextId` models.  `renderJobId` gives the
  rendered string form returned to the caller.
* `Map<string, Job>` and the two `Map<string, NodeJS.Timeout>` maps are
  association lists keyed by job id.  A timer handle is modelled by the
  absolute virtual time at which the timer is due to fire.
* `new Date()` timestamps are the manager's virtual clock `now` (milliseconds).
* `setTimeout` scheduling is modelled by recording the deadline; firing a due
  timer and advancing the virtual clock are explicit transition-system events.
  The clock may not advance past a pending deadline without the corresponding
  timer firing first, matching the single-threaded event-loop semantics.
* TypeScript `number` progress values are unbounded integers (`Int`), since
  the source does not clamp them.
-/

namespace JobManager

abbrev JobId := Nat

inductive JobStatus where
  | queued
  | processing
  | done
  | failed
deriving DecidableEq, Repr

/-- Job record, mirroring the `Job` interface of `jobManager.ts`. -/
structure Job where
  id : JobId
  status : JobStatus
  filePath : String
  createdAt : Nat
  progress : Int
  error : Option String
  completedAt : Option Nat
deriving DecidableEq, Repr

/-- State of a `JobManager` instance: the three private maps, the virtual
clock, and the id-generation counter abstracting `crypto.randomUUID()`. -/
structure ManagerState where
  jobs : List (JobId × Job)
  timeouts : List (JobId × Nat)
  cleanupTimers : List (JobId × Nat)
  now : Nat
  nextId : JobId
deriving DecidableEq, Repr

/-- State of a freshly constructed manager: all maps empty. -/
def initState : ManagerState := ⟨[], [], [], 0, 0⟩

/-- Remove every binding of key `k` from an association list
(`Map.delete`, also subsumes `clearTimeout` bookkeeping). -/
def eraseK (k : JobId) : List (JobId × α) → List (JobId × α)
  | [] => []
  | p :: t => if p.1 = k then eraseK k t else p :: eraseK k t

/-- Bind key `k` to `v`, replacing any previous binding (`Map.set`). -/
def setK (k : JobId) (v : α) (l : List (JobId × α)) : List (JobId × α) :=
  (k, v) :: eraseK k l

/-- Timeout duration: `private readonly defaultTimeoutMs = 2 * 60 * 1000`. -/
def defaultTimeoutMs : Nat := 2 * 60 * 1000

/-- Cleanup delay: `private readonly cleanupDelayMs = 5 * 60 * 1000`. -/
def cleanupDelayMs : Nat := 5 * 60 * 1000

/-- Message produced by the timeout callback:
`` `Job timed out after ${this.defaultTimeoutMs / 1000} seconds` ``. -/
def timeoutMessage : String :=
  "Job timed out after " ++ toString (defaultTimeoutMs / 1000) ++ " seconds"

/-- Rendered string form of a job id: `` `job_${crypto.randomUUID()}` ``,
with the counter value standing in for the UUID. -/
def renderJobId (n : JobId) : String := "job_" ++ toString n

/-- `createJob(filePath)`: generate a fresh id, store a queued job with
progress 0 and no `error`/`completedAt`, and return the id. -/
def createJob (filePath : String) (s : ManagerState) : JobId × ManagerState :=
  let jobId := s.nextId
  let job : Job :=
    { id := jobId
      status := .queued
      filePath := filePath
      createdAt := s.now
      progress := 0
      error := none
      completedAt := none }
  (jobId, { s with jobs := setK jobId job s.jobs, nextId := s.nextId + 1 })

/-- `getJob(jobId)`: plain map lookup. -/
def getJob (s : ManagerState) (jobId : JobId) : Option Job :=
  s.jobs.lookup jobId

/-- `clearJobTimeout(jobId)`: cancel and forget the timeout timer, if any. -/
def clearJobTimeout (jobId : JobId) (s : ManagerState) : ManagerState :=
  { s with timeouts := eraseK jobId s.timeouts }

/-- `startJobTimeout(jobId)`: clear any existing timeout, then schedule a
timer due `defaultTimeoutMs` from now (`setK` subsumes the clear). -/
def startJobTimeout (jobId : JobId) (s : ManagerState) : ManagerState :=
  { s with timeouts := setK jobId (s.now + defaultTimeoutMs) s.timeouts }

/-- `clearJobCleanup(jobId)`: cancel and forget the cleanup timer, if any. -/
def clearJobCleanup (jobId : JobId) (s : ManagerState) : ManagerState :=
  { s with cleanupTimers := eraseK jobId s.cleanupTimers }

/-- `scheduleJobCleanup(jobId)`: clear any existing cleanup timer, then
schedule one due `cleanupDelayMs` from now. -/
def scheduleJobCleanup (jobId : JobId) (s : ManagerState) : ManagerState :=
  { s with cleanupTimers := setK jobId (s.now + cleanupDelayMs) s.cleanupTimers }

/-- Optional-progress assignment: `if (progress !== undefined) job.progress = progress`. -/
def applyProgress (j : Job) : Option Int → Job
  | some p => { j with progress := p }
  | none => j

/-- `updateJobStatus(jobId, status, progress?)`: overwrite status (and
progress when given); entering `processing` arms the timeout timer; entering
`done` or `failed` stamps `completedAt`, clears the timeout and schedules
cleanup.  Returns `false` and leaves the state untouched on an unknown id. -/
def updateJobStatus (jobId : JobId) (status : JobStatus) (progress : Option Int)
    (s : ManagerState) : Bool × ManagerState :=
  match s.jobs.lookup jobId with
  | none => (false, s)
  | some job =>
    let job1 := applyProgress { job with status := status } progress
    match status with
    | .processing =>
        (true, startJobTimeout jobId { s with jobs := setK jobId job1 s.jobs })
    | .done =>
        (true, scheduleJobCleanup jobId (clearJobTimeout jobId
          { s with jobs := setK jobId { job1 with completedAt := some s.now } s.jobs }))
    | .failed =>
        (true, scheduleJobCleanup jobId (clearJobTimeout jobId
          { s with jobs := setK jobId { job1 with completedAt := some s.now } s.jobs }))
    | .queued =>
        (true, { s with jobs := setK jobId job1 s.jobs })

/-- `failJob(jobId, errorMessage)`: force status `failed`, record the error,
stamp `completedAt`, clear the timeout and schedule cleanup.  Returns `false`
and leaves the state untouched on an unknown id. -/
def failJob (jobId : JobId) (errorMessage : String) (s : ManagerState) :
    Bool × ManagerState :=
  match s.jobs.lookup jobId with
  | none => (false, s)
  | some job =>
    let job1 := { job with status := JobStatus.failed
                           error := some errorMessage
                           completedAt := some s.now }
    (true, scheduleJobCleanup jobId (clearJobTimeout jobId
      { s with jobs := setK jobId job1 s.jobs }))

/-- `cleanupJob(jobId)`: remove the job and cancel both of its timers, but
only when its status is terminal; otherwise return `false` unchanged. -/
def cleanupJob (jobId : JobId) (s : ManagerState) : Bool × ManagerState :=
  match s.jobs.lookup jobId with
  | none => (false, s)
  | some job =>
    if job.status = .done ∨ job.status = .failed then
      (true, clearJobTimeout jobId (clearJobCleanup jobId
        { s with jobs := eraseK jobId s.jobs }))
    else
      (false, s)

/-- Effect of the timeout timer's callback firing: the pending timer is
consumed and the callback runs `failJob(jobId, timeoutMessage)`. -/
def fireTimeoutAct (jobId : JobId) (s : ManagerState) : ManagerState :=
  (failJob jobId timeoutMessage (clearJobTimeout jobId s)).2

/-- Effect of the cleanup timer's callback firing:
`jobs.delete(jobId); cleanupTimers.delete(jobId)`. -/
def fireCleanupAct (jobId : JobId) (s : ManagerState) : ManagerState :=
  { s with jobs := eraseK jobId s.jobs, cleanupTimers := eraseK jobId s.cleanupTimers }

/-- Result record of `getJobCounts()`. -/
structure JobCounts where
  total : Nat
  queued : Nat
  processing : Nat
  done : Nat
  failed : Nat
deriving DecidableEq, Repr

/-- `counts[job.status]++`. -/
def bumpStatus (c : JobCounts) : JobStatus → JobCounts
  | .queued => { c with queued := c.queued + 1 }
  | .processing => { c with processing := c.processing + 1 }
  | .done => { c with done := c.done + 1 }
  | .failed => { c with failed := c.failed + 1 }

/-- `getJobCounts()`: fold over the registry, incrementing `total` and the
per-status counter for each job.  The source method only reads the maps, so
it is embedded as a pure function of the state. -/
def getJobCounts (s : ManagerState) : JobCounts :=
  s.jobs.foldl (fun c p => bumpStatus { c with total := c.total + 1 } p.2.status)
    ⟨0, 0, 0, 0, 0⟩

/-- External stimuli and timer events driving the manager. -/
inductive Event where
  | create (filePath : String)
  | update (jobId : JobId) (status : JobStatus) (progress : Option Int)
  | fail (jobId : JobId) (msg : String)
  | cleanup (jobId : JobId)
  | fireTimeout (jobId : JobId)
  | fireCleanup (jobId : JobId)
  | advance (dt : Nat)
deriving DecidableEq, Repr

/-- Does this event invoke a caller-facing operation on job `jobId`?
Timer firings and clock advancement are the manager's own doing. -/
def Event.touches (jobId : JobId) : Event → Bool
  | .update i _ _ => i == jobId
  | .fail i _ => i == jobId
  | .cleanup i => i == jobId
  | _ => false

/-- The clock may advance by `dt` only if no pending timer is due strictly
inside the window: a due timer fires before later instants are observed. -/
def CanAdvance (s : ManagerState) (dt : Nat) : Prop :=
  (∀ p ∈ s.timeouts, s.now + dt ≤ p.2) ∧
  (∀ p ∈ s.cleanupTimers, s.now + dt ≤ p.2)

instance (s : ManagerState) (dt : Nat) : Decidable (CanAdvance s dt) := by
  unfold CanAdvance; infer_instance

/-- Small-step transition relation of the job manager. -/
inductive Step : ManagerState → Event → ManagerState → Prop where
  | create (s : ManagerState) (fp : String) :
      Step s (.create fp) (createJob fp s).2
  | update (s : ManagerState) (id : JobId) (st : JobStatus) (p : Option Int) :
      Step s (.update id st p) (updateJobStatus id st p s).2
  | fail (s : ManagerState) (id : JobId) (m : String) :
      Step s (.fail id m) (failJob id m s).2
  | cleanup (s : ManagerState) (id : JobId) :
      Step s (.cleanup id) (cleanupJob id s).2
  | fireTimeout (s : ManagerState) (id : JobId) (d : Nat) :
      s.timeouts.lookup id = some d → d ≤ s.now →
      Step s (.fireTimeout id) (fireTimeoutAct id s)
  | fireCleanup (s : ManagerState) (id : JobId) (d : Nat) :
      s.cleanupTimers.lookup id = some d → d ≤ s.now →
      Step s (.fireCleanup id) (fireCleanupAct id s)
  | advance (s : ManagerState) (dt : Nat) :
      CanAdvance s dt →
      Step s (.advance dt) { s with now := s.now + dt }

/-- Execution of a list of events from one state to another. -/
inductive Trace : ManagerState → List Event → ManagerState → Prop where
  | nil (s : ManagerState) : Trace s [] s
  | cons {s s' s'' : ManagerState} {e : Event} {es : List Event} :
      Step s e s' → Trace s' es s'' → Trace s (e :: es) s''

/-- States reachable from a freshly constructed manager. -/
def Reachable (s : ManagerState) : Prop := ∃ es, Trace initState es s

/-- A status from which the spec says no further transitions should occur. -/
def TerminalStatus (st : JobStatus) : Prop := st = .done ∨ st = .failed

instance : DecidablePred TerminalStatus := fun st => by
  unfold TerminalStatus; infer_instance

/-- Every key of the association list is below the id counter. -/
def KeysBelow (n : JobId) (l : List (JobId × α)) : Prop := ∀ p ∈ l, p.1 < n

/-- Every pending timer deadline lies at or after the given instant. -/
def DeadlinesGE (t : Nat) (l : List (JobId × Nat)) : Prop := ∀ p ∈ l, t ≤ p.2

/-- Bundle of structural invariants preserved by every manager transition:
ids handed out are below the freshness counter, no pending deadline lies in
the past, a terminal job never has a pending timeout timer, every terminal
job has `completedAt` stamped and a cleanup timer due `cleanupDelayMs` after
the stamp, and a recorded error implies a `completedAt` stamp. -/
structure StateInv (s : ManagerState) : Prop where
  jobsBelow : KeysBelow s.nextId s.jobs
  timeoutsBelow : KeysBelow s.nextId s.timeouts
  cleanupsBelow : KeysBelow s.nextId s.cleanupTimers
  timeoutsGE : DeadlinesGE s.now s.timeouts
  cleanupsGE : DeadlinesGE s.now s.cleanupTimers
  terminalNoTimeout : ∀ id j, s.jobs.lookup id = some j → TerminalStatus j.status →
    s.timeouts.lookup id = none
  terminalCleanup : ∀ id j, s.jobs.lookup id = some j → TerminalStatus j.status →
    ∃ t, j.completedAt = some t ∧ s.cleanupTimers.lookup id = some (t + cleanupDelayMs)
  errorCompleted : ∀ id j, s.jobs.lookup id = some j → j.error.isSome →
    j.completedAt.isSome

/-- Job `id` holds the record `j` with no timeout timer and a cleanup timer
due at `C`; once `C` passes, the job and the timer are gone.  Preserved by
every event that is not a caller-facing operation on `id`. -/
def TerminalHold (id : JobId) (j : Job) (C : Nat) (s : ManagerState) : Prop :=
  id < s.nextId ∧
  ((getJob s id = some j ∧ s.timeouts.lookup id = none ∧
    s.cleanupTimers.lookup id = some C ∧ s.now ≤ C) ∨
   (getJob s id = none ∧ s.timeouts.lookup id = none ∧
    s.cleanupTimers.lookup id = none ∧ C ≤ s.now))

/-- Job `id` is waiting on a timeout timer due at `D`, with no cleanup timer
pending; when the timer fires the job is failed with `timeoutMessage` and a
cleanup timer due `cleanupDelayMs` later; once that passes the job is gone.
Preserved by every event that is not a caller-facing operation on `id`. -/
def TimeoutWatch (id : JobId) (D : Nat) (s : ManagerState) : Prop :=
  id < s.nextId ∧
  (((∃ j, getJob s id = some j) ∧ s.timeouts.lookup id = some D ∧
     s.cleanupTimers.lookup id = none ∧ s.now ≤ D) ∨
   ((∃ j, getJob s id = some j ∧ j.status = .failed ∧
      j.error = some timeoutMessage ∧ j.completedAt = some D) ∧
     s.timeouts.lookup id = none ∧
     s.cleanupTimers.lookup id = some (D + cleanupDelayMs) ∧
     D ≤ s.now ∧ s.now ≤ D + cleanupDelayMs) ∨
   (getJob s id = none ∧ s.timeouts.lookup id = none ∧
     s.cleanupTimers.lookup id = none ∧ D + cleanupDelayMs ≤ s.now))

/-- Number of registered jobs whose status is `st`. -/
def countStatus (st : JobStatus) (l : List (JobId × Job)) : Nat :=
  l.countP (fun p => p.2.status == st)

/-- Any progress argument supplied by this event lies within 0..100. -/
def progressOkEvent : Event → Prop
  | .update _ _ (some p) => 0 ≤ p ∧ p ≤ 100
  | _ => True

/-- Every registered job's progress lies within 0..100. -/
def ProgressBounds (s : ManagerState) : Prop :=
  ∀ id j, getJob s id = some j → 0 ≤ j.progress ∧ j.progress ≤ 100

/-- Concrete run: one job (id 0) created at virtual time 0. -/
def exCreated : ManagerState := (createJob "/uploads/test.pdf" initState).2

/-- Concrete run: the job of `exCreated` moved straight to `done`. -/
def exDone : ManagerState := (updateJobStatus 0 .done none exCreated).2

/-- The record held by job 0 in `exDone`. -/
def jDone0 : Job := ⟨0, .done, "/uploads/test.pdf", 0, 0, none, some 0⟩

/-- Concrete run: the job of `exCreated` moved to `failed` through
`updateJobStatus`, which records no error message. -/
def exFailedNoErr : ManagerState := (updateJobStatus 0 .failed none exCreated).2

/-- Concrete run: the job of `exCreated` given the out-of-range progress
argument 150, which the manager stores unchecked. -/
def exProg : ManagerState := (updateJobStatus 0 .processing (some 150) exCreated).2

/-- Concrete run exhibiting a stale cleanup timer: the `exDone` job (cleanup
due at 300000) is moved back to `processing` at time 250000, arming a timeout
due at 370000 while the old cleanup timer stays pending. -/
def exStale1 : ManagerState := { exDone with now := exDone.now + 250000 }

/-- `exStale1` after the `processing` update that re-activates the done job. -/
def exStale2 : ManagerState := (updateJobStatus 0 .processing none exStale1).2

/-- `exStale2` advanced to time 300000, when the stale cleanup is due. -/
def exStale3 : ManagerState := { exStale2 with now := exStale2.now + 50000 }

/-- `exStale3` after the stale cleanup fires, deleting the processing job. -/
def exStale4 : ManagerState := fireCleanupAct 0 exStale3

/-- `exStale4` advanced to time 370000, when the timeout is due. -/
def exStale5 : ManagerState := { exStale4 with now := exStale4.now + 70000 }

/-- `exStale5` after the timeout fires: `failJob` finds no job and does
nothing, so the timed-out job never shows up as `failed`. -/
def exStale6 : ManagerState := fireTimeoutAct 0 exStale5

/-- Event list of the stale-cleanup run, from a fresh manager. -/
def exStaleEvents : List Event :=
  [.create "/uploads/test.pdf", .update 0 .done none, .advance 250000,
   .update 0 .processing none, .advance 50000, .fireCleanup 0,
   .advance 70000, .fireTimeout 0]

/-- Concrete run for the timeout scenario: the `exCreated` job moved to
`processing` at time 0. -/
def exProc : ManagerState := (updateJobStatus 0 .processing none exCreated).2

/-- `exProc` advanced through its timeout firing at 120000, then one more
millisecond. -/
def exProcTimedOut : ManagerState :=
  { fireTimeoutAct 0 { exProc with now := exProc.now + 120000 } with
    now := (fireTimeoutAct 0 { exProc with now := exProc.now + 120000 }).now + 1 }

/-- Concrete run for the cancellation scenario: `exProc` advanced to 60000. -/
def exProcMid : ManagerState := { exProc with now := exProc.now + 60000 }

/-- `exProcMid` after the job is updated to `done`, cancelling the timeout. -/
def exDoneMid : ManagerState := (updateJobStatus 0 .done none exProcMid).2

/-- `exDoneMid` advanced past the original timeout window, to time 160000. -/
def exDoneLate : ManagerState := { exDoneMid with now := exDoneMid.now + 100000 }

/-- Concrete run for the progress scenario: a job created and updated with
an in-range progress argument. -/
def exProg50 : ManagerState :=
  (updateJobStatus 0 .processing (some 50) exCreated).2

/-- `exDone` advanced by 100000 ms, still before the cleanup deadline. -/
def exDoneWait : ManagerState := { exDone with now := exDone.now + 100000 }

theorem reachable_init : Reachable initState := ⟨[], .nil _⟩

theorem trace_snoc {s s' s'' : ManagerState} {es : List Event} {e : Event}
    (ht : Trace s es s') (hs : Step s' e s'') : Trace s (es ++ [e]) s'' := by
  induction ht with
  | nil => exact .cons hs (.nil _)
  | cons h _ ih => exact .cons h (ih hs)

theorem reachable_step {s s' : ManagerState} {e : Event}
    (hr : Reachable s) (hs : Step s e s') : Reachable s' := by
  obtain ⟨es, ht⟩ := hr
  exact ⟨es ++ [e], trace_snoc ht hs⟩

theorem reachable_trace {s s' : ManagerState} {es : List Event}
    (hr : Reachable s) (ht : Trace s es s') : Reachable s' := by
  induction ht with
  | nil => exact hr
  | cons h _ ih => exact ih (reachable_step hr h)

/-! ### Association-list lemmas -/

theorem lookup_cons {α : Type _} (a k : JobId) (v : α) (t : List (JobId × α)) :
    (((k, v) :: t) : List (JobId × α)).lookup a =
      if a = k then some v else t.lookup a := by
  simp only [List.lookup]
  cases hb : a == k
  · simp [ne_of_beq_false hb]
  · simp [eq_of_beq hb]

theorem lookup_eraseK_self {α : Type _} (k : JobId) (l : List (JobId × α)) :
    (eraseK k l).lookup k = none := by
  induction l with
  | nil => rfl
  | cons p t ih =>
    obtain ⟨k1, v1⟩ := p
    by_cases h : k1 = k
    · simpa [eraseK, h] using ih
    · rw [show eraseK k ((k1, v1) :: t) = (k1, v1) :: eraseK k t by
        simp [eraseK, h]]
      rw [lookup_cons, if_neg (fun he => h he.symm)]
      exact ih

theorem lookup_eraseK_ne {α : Type _} {k k' : JobId} (h : k' ≠ k)
    (l : List (JobId × α)) : (eraseK k l).lookup k' = l.lookup k' := by
  induction l with
  | nil => rfl
  | cons p t ih =>
    obtain ⟨k1, v1⟩ := p
    by_cases hp : k1 = k
    · subst hp
      rw [show eraseK k1 ((k1, v1) :: t) = eraseK k1 t by simp [eraseK]]
      rw [lookup_cons, if_neg h]
      exact ih
    · rw [show eraseK k ((k1, v1) :: t) = (k1, v1) :: eraseK k t by
        simp [eraseK, hp]]
      rw [lookup_cons, lookup_cons]
      by_cases hq : k' = k1
      · simp [hq]
      · simp [hq, ih]

theorem mem_eraseK {α : Type _} {p : JobId × α} {k : JobId}
    {l : List (JobId × α)} (h : p ∈ eraseK k l) : p ∈ l := by
  induction l with
  | nil => simp [eraseK] at h
  | cons q t ih =>
    by_cases hq : q.1 = k
    · simp only [eraseK, if_pos hq] at h
      exact List.mem_cons_of_mem _ (ih h)
    · simp only [eraseK, if_neg hq, List.mem_cons] at h
      rcases h with h | h
      · exact h ▸ List.mem_cons_self _ _
      · exact List.mem_cons_of_mem _ (ih h)

theorem lookup_setK_self {α : Type _} (k : JobId) (v : α)
    (l : List (JobId × α)) : (setK k v l).lookup k = some v := by
  rw [setK, lookup_cons, if_pos rfl]

theorem lookup_setK_ne {α : Type _} {k k' : JobId} (h : k' ≠ k) (v : α)
    (l : List (JobId × α)) : (setK k v l).lookup k' = l.lookup k' := by
  rw [setK, lookup_cons, if_neg h, lookup_eraseK_ne h]

theorem mem_setK {α : Type _} {p : JobId × α} {k : JobId} {v : α}
    {l : List (JobId × α)} (h : p ∈ setK k v l) : p = (k, v) ∨ p ∈ l := by
  simp only [setK, List.mem_cons] at h
  rcases h with h | h
  · exact Or.inl h
  · exact Or.inr (mem_eraseK h)

theorem mem_of_lookup {α : Type _} {k : JobId} {v : α} {l : List (JobId × α)}
    (h : l.lookup k = some v) : (k, v) ∈ l := by
  induction l with
  | nil => simp [List.lookup] at h
  | cons p t ih =>
    obtain ⟨k1, v1⟩ := p
    rw [lookup_cons] at h
    by_cases hp : k = k1
    · rw [if_pos hp] at h
      subst hp
      obtain rfl : v1 = v := by injection h
      exact List.mem_cons_self _ _
    · rw [if_neg hp] at h
      exact List.mem_cons_of_mem _ (ih h)

theorem eraseK_eraseK {α : Type _} (k : JobId) (l : List (JobId × α)) :
    eraseK k (eraseK k l) = eraseK k l := by
  induction l with
  | nil => rfl
  | cons p t ih =>
    by_cases h : p.1 = k
    · simp [eraseK, h, ih]
    · simp [eraseK, h, ih]

/-! ### Reachable-state invariants -/

theorem not_terminal_queued : ¬ TerminalStatus .queued := by decide

theorem not_terminal_processing : ¬ TerminalStatus .processing := by decide

theorem keysBelow_mono {α : Type _} {n m : JobId} {l : List (JobId × α)}
    (h : n ≤ m) (hk : KeysBelow n l) : KeysBelow m l :=
  fun p hp => lt_of_lt_of_le (hk p hp) h

theorem keysBelow_eraseK {α : Type _} {n k : JobId} {l : List (JobId × α)}
    (hk : KeysBelow n l) : KeysBelow n (eraseK k l) :=
  fun p hp => hk p (mem_eraseK hp)

theorem keysBelow_setK {α : Type _} {n k : JobId} {v : α} {l : List (JobId × α)}
    (hkn : k < n) (hk : KeysBelow n l) : KeysBelow n (setK k v l) := by
  intro p hp
  rcases mem_setK hp with h | h
  · rw [h]; exact hkn
  · exact hk p h

theorem deadlinesGE_eraseK {t : Nat} {k : JobId} {l : List (JobId × Nat)}
    (h : DeadlinesGE t l) : DeadlinesGE t (eraseK k l) :=
  fun p hp => h p (mem_eraseK hp)

theorem deadlinesGE_setK {t d : Nat} {k : JobId} {l : List (JobId × Nat)}
    (htd : t ≤ d) (h : DeadlinesGE t l) : DeadlinesGE t (setK k d l) := by
  intro p hp
  rcases mem_setK hp with hm | hm
  · rw [hm]; exact htd
  · exact h p hm

theorem lookup_keysBelow_none {α : Type _} {n : JobId} {l : List (JobId × α)}
    (hk : KeysBelow n l) : l.lookup n = none := by
  cases hl : l.lookup n with
  | none => rfl
  | some v => exact absurd (hk _ (mem_of_lookup hl)) (lt_irrefl n)

theorem stateInv_init : StateInv initState := by
  constructor <;> first
    | exact fun p hp => absurd hp (List.not_mem_nil p)
    | (intro id j h
       simp [initState, List.lookup] at h)

theorem applyProgress_status (j : Job) (p : Option Int) :
    (applyProgress j p).status = j.status := by cases p <;> rfl

theorem applyProgress_error (j : Job) (p : Option Int) :
    (applyProgress j p).error = j.error := by cases p <;> rfl

theorem applyProgress_completedAt (j : Job) (p : Option Int) :
    (applyProgress j p).completedAt = j.completedAt := by cases p <;> rfl

theorem applyProgress_filePath (j : Job) (p : Option Int) :
    (applyProgress j p).filePath = j.filePath := by cases p <;> rfl

theorem applyProgress_id (j : Job) (p : Option Int) :
    (applyProgress j p).id = j.id := by cases p <;> rfl

theorem applyProgress_createdAt (j : Job) (p : Option Int) :
    (applyProgress j p).createdAt = j.createdAt := by cases p <;> rfl

/-! ### Characterizations of the operations -/

theorem createJob_fst (fp : String) (s : ManagerState) :
    (createJob fp s).1 = s.nextId := rfl

theorem createJob_snd (fp : String) (s : ManagerState) :
    (createJob fp s).2 =
      { s with
        jobs := setK s.nextId ⟨s.nextId, .queued, fp, s.now, 0, none, none⟩ s.jobs
        nextId := s.nextId + 1 } := rfl

theorem updateJobStatus_unknown {s : ManagerState} {id : JobId}
    (st : JobStatus) (p : Option Int) (h : s.jobs.lookup id = none) :
    updateJobStatus id st p s = (false, s) := by
  simp only [updateJobStatus, h]

theorem updateJobStatus_processing {s : ManagerState} {id : JobId} {job : Job}
    (p : Option Int) (h : s.jobs.lookup id = some job) :
    updateJobStatus id .processing p s =
      (true, { s with
        jobs := setK id (applyProgress { job with status := .processing } p) s.jobs
        timeouts := setK id (s.now + defaultTimeoutMs) s.timeouts }) := by
  simp only [updateJobStatus, h]
  rfl

theorem updateJobStatus_done {s : ManagerState} {id : JobId} {job : Job}
    (p : Option Int) (h : s.jobs.lookup id = some job) :
    updateJobStatus id .done p s =
      (true, { s with
        jobs := setK id
          { applyProgress { job with status := .done } p with completedAt := some s.now }
          s.jobs
        timeouts := eraseK id s.timeouts
        cleanupTimers := setK id (s.now + cleanupDelayMs) s.cleanupTimers }) := by
  simp only [updateJobStatus, h]
  rfl

theorem updateJobStatus_failed {s : ManagerState} {id : JobId} {job : Job}
    (p : Option Int) (h : s.jobs.lookup id = some job) :
    updateJobStatus id .failed p s =
      (true, { s with
        jobs := setK id
          { applyProgress { job with status := .failed } p with completedAt := some s.now }
          s.jobs
        timeouts := eraseK id s.timeouts
        cleanupTimers := setK id (s.now + cleanupDelayMs) s.cleanupTimers }) := by
  simp only [updateJobStatus, h]
  rfl

theorem updateJobStatus_queued {s : ManagerState} {id : JobId} {job : Job}
    (p : Option Int) (h : s.jobs.lookup id = some job) :
    updateJobStatus id .queued p s =
      (true, { s with
        jobs := setK id (applyProgress { job with status := .queued } p) s.jobs }) := by
  simp only [updateJobStatus, h]

theorem failJob_unknown {s : ManagerState} {id : JobId} (m : String)
    (h : s.jobs.lookup id = none) : failJob id m s = (false, s) := by
  simp only [failJob, h]

theorem failJob_known {s : ManagerState} {id : JobId} {job : Job} (m : String)
    (h : s.jobs.lookup id = some job) :
    failJob id m s =
      (true, { s with
        jobs := setK id
          { job with status := .failed, error := some m, completedAt := some s.now }
          s.jobs
        timeouts := eraseK id s.timeouts
        cleanupTimers := setK id (s.now + cleanupDelayMs) s.cleanupTimers }) := by
  simp only [failJob, h]
  rfl

theorem cleanupJob_unknown {s : ManagerState} {id : JobId}
    (h : s.jobs.lookup id = none) : cleanupJob id s = (false, s) := by
  simp only [cleanupJob, h]

theorem cleanupJob_active {s : ManagerState} {id : JobId} {job : Job}
    (h : s.jobs.lookup id = some job) (hnt : ¬ TerminalStatus job.status) :
    cleanupJob id s = (false, s) := by
  simp only [cleanupJob, h]
  rw [if_neg (show ¬(job.status = .done ∨ job.status = .failed) from hnt)]

theorem cleanupJob_terminal {s : ManagerState} {id : JobId} {job : Job}
    (h : s.jobs.lookup id = some job) (ht : TerminalStatus job.status) :
    cleanupJob id s =
      (true, { s with
        jobs := eraseK id s.jobs
        timeouts := eraseK id s.timeouts
        cleanupTimers := eraseK id s.cleanupTimers }) := by
  simp only [cleanupJob, h]
  rw [if_pos (show job.status = .done ∨ job.status = .failed from ht)]
  rfl

theorem fireTimeoutAct_unknown {s : ManagerState} {id : JobId}
    (h : s.jobs.lookup id = none) :
    fireTimeoutAct id s = { s with timeouts := eraseK id s.timeouts } := by
  have : (clearJobTimeout id s).jobs.lookup id = none := h
  rw [fireTimeoutAct, failJob_unknown _ this]
  rfl

theorem fireTimeoutAct_known {s : ManagerState} {id : JobId} {job : Job}
    (h : s.jobs.lookup id = some job) :
    fireTimeoutAct id s =
      { s with
        jobs := setK id
          { job with status := .failed, error := some timeoutMessage,
                     completedAt := some s.now }
          s.jobs
        timeouts := eraseK id s.timeouts
        cleanupTimers := setK id (s.now + cleanupDelayMs) s.cleanupTimers } := by
  have : (clearJobTimeout id s).jobs.lookup id = some job := h
  rw [fireTimeoutAct, failJob_known _ this]
  show ({ clearJobTimeout id s with
    jobs := _, timeouts := _, cleanupTimers := _ } : ManagerState) = _
  simp only [clearJobTimeout]
  rw [eraseK_eraseK]

/-! ### Preservation of the invariants -/

theorem stateInv_terminalWrite {s : ManagerState} {id : JobId} {j2 : Job}
    (hinv : StateInv s) (hid : id < s.nextId)
    (hca : j2.completedAt = some s.now) :
    StateInv { s with jobs := setK id j2 s.jobs
                      timeouts := eraseK id s.timeouts
                      cleanupTimers := setK id (s.now + cleanupDelayMs) s.cleanupTimers } := by
  obtain ⟨jb, tb, cb, tg, cg, tnt, tc, ec⟩ := hinv
  refine ⟨keysBelow_setK hid jb, keysBelow_eraseK tb, keysBelow_setK hid cb,
          deadlinesGE_eraseK tg, deadlinesGE_setK (Nat.le_add_right _ _) cg,
          ?_, ?_, ?_⟩
  · intro id' j' hl ht'
    by_cases hii : id' = id
    · subst hii
      exact lookup_eraseK_self _ _
    · rw [lookup_setK_ne hii] at hl
      rw [lookup_eraseK_ne hii]
      exact tnt id' j' hl ht'
  · intro id' j' hl ht'
    by_cases hii : id' = id
    · subst hii
      rw [lookup_setK_self] at hl
      obtain rfl : j2 = j' := by injection hl
      exact ⟨s.now, hca, lookup_setK_self _ _ _⟩
    · rw [lookup_setK_ne hii] at hl
      rw [lookup_setK_ne hii]
      exact tc id' j' hl ht'
  · intro id' j' hl he
    by_cases hii : id' = id
    · subst hii
      rw [lookup_setK_self] at hl
      obtain rfl : j2 = j' := by injection hl
      rw [hca]
      rfl
    · rw [lookup_setK_ne hii] at hl
      exact ec id' j' hl he

theorem stateInv_fireCleanupAct {s : ManagerState} {id : JobId}
    (hinv : StateInv s) :
    StateInv { s with jobs := eraseK id s.jobs
                      cleanupTimers := eraseK id s.cleanupTimers } := by
  obtain ⟨jb, tb, cb, tg, cg, tnt, tc, ec⟩ := hinv
  refine ⟨keysBelow_eraseK jb, tb, keysBelow_eraseK cb,
          tg, deadlinesGE_eraseK cg, ?_, ?_, ?_⟩
  · intro id' j' hl' ht'
    by_cases hii : id' = id
    · subst hii
      rw [lookup_eraseK_self] at hl'
      exact absurd hl' (by simp)
    · rw [lookup_eraseK_ne hii] at hl'
      exact tnt id' j' hl' ht'
  · intro id' j' hl' ht'
    by_cases hii : id' = id
    · subst hii
      rw [lookup_eraseK_self] at hl'
      exact absurd hl' (by simp)
    · rw [lookup_eraseK_ne hii] at hl'
      rw [lookup_eraseK_ne hii]
      exact tc id' j' hl' ht'
  · intro id' j' hl' he
    by_cases hii : id' = id
    · subst hii
      rw [lookup_eraseK_self] at hl'
      exact absurd hl' (by simp)
    · rw [lookup_eraseK_ne hii] at hl'
      exact ec id' j' hl' he

theorem stateInv_step {s s' : ManagerState} {e : Event}
    (hinv : StateInv s) (hs : Step s e s') : StateInv s' := by
  cases hs with
  | create fp =>
    obtain ⟨jb, tb, cb, tg, cg, tnt, tc, ec⟩ := hinv
    rw [createJob_snd]
    refine ⟨keysBelow_setK (Nat.lt_succ_self _) (keysBelow_mono (Nat.le_succ _) jb),
            keysBelow_mono (Nat.le_succ _) tb, keysBelow_mono (Nat.le_succ _) cb,
            tg, cg, ?_, ?_, ?_⟩
    · intro id' j' hl ht'
      by_cases hii : id' = s.nextId
      · subst hii
        rw [lookup_setK_self] at hl
        obtain rfl : _ = j' := by injection hl
        exact absurd ht' not_terminal_queued
      · rw [lookup_setK_ne hii] at hl
        exact tnt id' j' hl ht'
    · intro id' j' hl ht'
      by_cases hii : id' = s.nextId
      · subst hii
        rw [lookup_setK_self] at hl
        obtain rfl : _ = j' := by injection hl
        exact absurd ht' not_terminal_queued
      · rw [lookup_setK_ne hii] at hl
        exact tc id' j' hl ht'
    · intro id' j' hl he
      by_cases hii : id' = s.nextId
      · subst hii
        rw [lookup_setK_self] at hl
        obtain rfl : _ = j' := by injection hl
        simp at he
      · rw [lookup_setK_ne hii] at hl
        exact ec id' j' hl he
  | update id st p =>
    cases hl : s.jobs.lookup id with
    | none =>
      rw [updateJobStatus_unknown st p hl]
      exact hinv
    | some job =>
      have hid : id < s.nextId := hinv.jobsBelow _ (mem_of_lookup hl)
      cases st with
      | processing =>
        rw [updateJobStatus_processing p hl]
        obtain ⟨jb, tb, cb, tg, cg, tnt, tc, ec⟩ := hinv
        refine ⟨keysBelow_setK hid jb, keysBelow_setK hid tb, cb,
                deadlinesGE_setK (Nat.le_add_right _ _) tg, cg, ?_, ?_, ?_⟩
        · intro id' j' hl' ht'
          by_cases hii : id' = id
          · subst hii
            rw [lookup_setK_self] at hl'
            obtain rfl : _ = j' := by injection hl'
            rw [applyProgress_status] at ht'
            exact absurd ht' not_terminal_processing
          · rw [lookup_setK_ne hii] at hl'
            rw [lookup_setK_ne hii]
            exact tnt id' j' hl' ht'
        · intro id' j' hl' ht'
          by_cases hii : id' = id
          · subst hii
            rw [lookup_setK_self] at hl'
            obtain rfl : _ = j' := by injection hl'
            rw [applyProgress_status] at ht'
            exact absurd ht' not_terminal_processing
          · rw [lookup_setK_ne hii] at hl'
            exact tc id' j' hl' ht'
        · intro id' j' hl' he
          by_cases hii : id' = id
          · subst hii
            rw [lookup_setK_self] at hl'
            obtain rfl : _ = j' := by injection hl'
            rw [applyProgress_error] at he
            rw [applyProgress_completedAt]
            exact ec _ job hl he
          · rw [lookup_setK_ne hii] at hl'
            exact ec id' j' hl' he
      | queued =>
        rw [updateJobStatus_queued p hl]
        obtain ⟨jb, tb, cb, tg, cg, tnt, tc, ec⟩ := hinv
        refine ⟨keysBelow_setK hid jb, tb, cb, tg, cg, ?_, ?_, ?_⟩
        · intro id' j' hl' ht'
          by_cases hii : id' = id
          · subst hii
            rw [lookup_setK_self] at hl'
            obtain rfl : _ = j' := by injection hl'
            rw [applyProgress_status] at ht'
            exact absurd ht' not_terminal_queued
          · rw [lookup_setK_ne hii] at hl'
            exact tnt id' j' hl' ht'
        · intro id' j' hl' ht'
          by_cases hii : id' = id
          · subst hii
            rw [lookup_setK_self] at hl'
            obtain rfl : _ = j' := by injection hl'
            rw [applyProgress_status] at ht'
            exact absurd ht' not_terminal_queued
          · rw [lookup_setK_ne hii] at hl'
            exact tc id' j' hl' ht'
        · intro id' j' hl' he
          by_cases hii : id' = id
          · subst hii
            rw [lookup_setK_self] at hl'
            obtain rfl : _ = j' := by injection hl'
            rw [applyProgress_error] at he
            rw [applyProgress_completedAt]
            exact ec _ job hl he
          · rw [lookup_setK_ne hii] at hl'
            exact ec id' j' hl' he
      | done =>
        rw [updateJobStatus_done p hl]
        exact stateInv_terminalWrite hinv hid rfl
      | failed =>
        rw [updateJobStatus_failed p hl]
        exact stateInv_terminalWrite hinv hid rfl
  | fail id m =>
    cases hl : s.jobs.lookup id with
    | none =>
      rw [failJob_unknown m hl]
      exact hinv
    | some job =>
      have hid : id < s.nextId := hinv.jobsBelow _ (mem_of_lookup hl)
      rw [failJob_known m hl]
      exact stateInv_terminalWrite hinv hid rfl
  | cleanup id =>
    cases hl : s.jobs.lookup id with
    | none =>
      rw [cleanupJob_unknown hl]
      exact hinv
    | some job =>
      by_cases ht : TerminalStatus job.status
      · rw [cleanupJob_terminal hl ht]
        obtain ⟨jb, tb, cb, tg, cg, tnt, tc, ec⟩ := hinv
        refine ⟨keysBelow_eraseK jb, keysBelow_eraseK tb, keysBelow_eraseK cb,
                deadlinesGE_eraseK tg, deadlinesGE_eraseK cg, ?_, ?_, ?_⟩
        · intro id' j' hl' ht'
          by_cases hii : id' = id
          · subst hii
            rw [lookup_eraseK_self] at hl'
            exact absurd hl' (by simp)
          · rw [lookup_eraseK_ne hii] at hl'
            rw [lookup_eraseK_ne hii]
            exact tnt id' j' hl' ht'
        · intro id' j' hl' ht'
          by_cases hii : id' = id
          · subst hii
            rw [lookup_eraseK_self] at hl'
            exact absurd hl' (by simp)
          · rw [lookup_eraseK_ne hii] at hl'
            rw [lookup_eraseK_ne hii]
            exact tc id' j' hl' ht'
        · intro id' j' hl' he
          by_cases hii : id' = id
          · subst hii
            rw [lookup_eraseK_self] at hl'
            exact absurd hl' (by simp)
          · rw [lookup_eraseK_ne hii] at hl'
            exact ec id' j' hl' he
      · rw [cleanupJob_active hl ht]
        exact hinv
  | fireTimeout id d hd hdn =>
    cases hl : s.jobs.lookup id with
    | none =>
      rw [fireTimeoutAct_unknown hl]
      obtain ⟨jb, tb, cb, tg, cg, tnt, tc, ec⟩ := hinv
      refine ⟨jb, keysBelow_eraseK tb, cb, deadlinesGE_eraseK tg, cg, ?_, tc, ec⟩
      intro id' j' hl' ht'
      by_cases hii : id' = id
      · subst hii
        exact lookup_eraseK_self _ _
      · rw [lookup_eraseK_ne hii]
        exact tnt id' j' hl' ht'
    | some job =>
      have hid : id < s.nextId := hinv.jobsBelow _ (mem_of_lookup hl)
      rw [fireTimeoutAct_known hl]
      exact stateInv_terminalWrite hinv hid rfl
  | fireCleanup id d hd hdn =>
    exact stateInv_fireCleanupAct hinv
  | advance dt hca =>
    obtain ⟨jb, tb, cb, tg, cg, tnt, tc, ec⟩ := hinv
    exact ⟨jb, tb, cb, hca.1, hca.2, tnt, tc, ec⟩

theorem stateInv_trace {s s' : ManagerState} {es : List Event}
    (hinv : StateInv s) (ht : Trace s es s') : StateInv s' := by
  induction ht with
  | nil => exact hinv
  | cons h _ ih => exact ih (stateInv_step hinv h)

theorem reachable_stateInv {s : ManagerState} (hr : Reachable s) : StateInv s := by
  obtain ⟨es, ht⟩ := hr
  exact stateInv_trace stateInv_init ht

/-! ### Framing: how a step can affect one job's slice of the state -/

/-- Generic induction along a trace: a property preserved by every allowed
step holds at the end of any trace of allowed events. -/
theorem trace_inv {P : ManagerState → Prop} {ok : Event → Prop}
    (hstep : ∀ s e s', P s → Step s e s' → ok e → P s')
    {s s' : ManagerState} {es : List Event}
    (ht : Trace s es s') (hok : ∀ e ∈ es, ok e) (hp : P s) : P s' := by
  induction ht with
  | nil => exact hp
  | cons h _ ih =>
      exact ih (fun e he => hok e (List.mem_cons_of_mem _ he))
        (hstep _ _ _ hp h (hok _ (List.mem_cons_self _ _)))

/-- Case analysis for a step as seen from job `id`, assuming no caller-facing
operation targets `id`: either the step leaves `id`'s job record and both of
its timer slots unchanged (with the clock also unchanged), or it is a pure
clock advance, or it is one of `id`'s own timers firing. -/
theorem step_cases {s s' : ManagerState} {e : Event} {id : JobId}
    (hs : Step s e s') (hid : id < s.nextId) (hne : e.touches id = false) :
    (getJob s' id = getJob s id ∧
     s'.timeouts.lookup id = s.timeouts.lookup id ∧
     s'.cleanupTimers.lookup id = s.cleanupTimers.lookup id ∧
     s'.now = s.now ∧ s.nextId ≤ s'.nextId) ∨
    (∃ dt, e = .advance dt ∧ CanAdvance s dt ∧
      s' = { s with now := s.now + dt }) ∨
    (e = .fireTimeout id ∧ ∃ d, s.timeouts.lookup id = some d ∧ d ≤ s.now ∧
      s' = fireTimeoutAct id s) ∨
    (e = .fireCleanup id ∧ ∃ d, s.cleanupTimers.lookup id = some d ∧ d ≤ s.now ∧
      s' = fireCleanupAct id s) := by
  cases hs with
  | create fp =>
    left
    rw [createJob_snd]
    have hne' : id ≠ s.nextId := Nat.ne_of_lt hid
    exact ⟨lookup_setK_ne hne' _ _, rfl, rfl, rfl, Nat.le_succ _⟩
  | update jid st p =>
    have hne' : id ≠ jid := by
      simp only [Event.touches] at hne
      exact fun h => by simp [h] at hne
    left
    cases hl : s.jobs.lookup jid with
    | none =>
      rw [updateJobStatus_unknown st p hl]
      exact ⟨rfl, rfl, rfl, rfl, Nat.le_refl _⟩
    | some job =>
      cases st with
      | processing =>
        rw [updateJobStatus_processing p hl]
        exact ⟨lookup_setK_ne hne' _ _, lookup_setK_ne hne' _ _, rfl, rfl,
          Nat.le_refl _⟩
      | queued =>
        rw [updateJobStatus_queued p hl]
        exact ⟨lookup_setK_ne hne' _ _, rfl, rfl, rfl, Nat.le_refl _⟩
      | done =>
        rw [updateJobStatus_done p hl]
        exact ⟨lookup_setK_ne hne' _ _, lookup_eraseK_ne hne' _,
          lookup_setK_ne hne' _ _, rfl, Nat.le_refl _⟩
      | failed =>
        rw [updateJobStatus_failed p hl]
        exact ⟨lookup_setK_ne hne' _ _, lookup_eraseK_ne hne' _,
          lookup_setK_ne hne' _ _, rfl, Nat.le_refl _⟩
  | fail jid m =>
    have hne' : id ≠ jid := by
      simp only [Event.touches] at hne
      exact fun h => by simp [h] at hne
    left
    cases hl : s.jobs.lookup jid with
    | none =>
      rw [failJob_unknown m hl]
      exact ⟨rfl, rfl, rfl, rfl, Nat.le_refl _⟩
    | some job =>
      rw [failJob_known m hl]
      exact ⟨lookup_setK_ne hne' _ _, lookup_eraseK_ne hne' _,
        lookup_setK_ne hne' _ _, rfl, Nat.le_refl _⟩
  | cleanup jid =>
    have hne' : id ≠ jid := by
      simp only [Event.touches] at hne
      exact fun h => by simp [h] at hne
    left
    cases hl : s.jobs.lookup jid with
    | none =>
      rw [cleanupJob_unknown hl]
      exact ⟨rfl, rfl, rfl, rfl, Nat.le_refl _⟩
    | some job =>
      by_cases ht : TerminalStatus job.status
      · rw [cleanupJob_terminal hl ht]
        exact ⟨lookup_eraseK_ne hne' _, lookup_eraseK_ne hne' _,
          lookup_eraseK_ne hne' _, rfl, Nat.le_refl _⟩
      · rw [cleanupJob_active hl ht]
        exact ⟨rfl, rfl, rfl, rfl, Nat.le_refl _⟩
  | fireTimeout jid d hd hdn =>
    by_cases hii : jid = id
    · subst hii
      exact Or.inr (Or.inr (Or.inl ⟨rfl, d, hd, hdn, rfl⟩))
    · have hne' : id ≠ jid := fun h => hii h.symm
      left
      cases hl : s.jobs.lookup jid with
      | none =>
        rw [fireTimeoutAct_unknown hl]
        exact ⟨rfl, lookup_eraseK_ne hne' _, rfl, rfl, Nat.le_refl _⟩
      | some job =>
        rw [fireTimeoutAct_known hl]
        exact ⟨lookup_setK_ne hne' _ _, lookup_eraseK_ne hne' _,
          lookup_setK_ne hne' _ _, rfl, Nat.le_refl _⟩
  | fireCleanup jid d hd hdn =>
    by_cases hii : jid = id
    · subst hii
      exact Or.inr (Or.inr (Or.inr ⟨rfl, d, hd, hdn, rfl⟩))
    · have hne' : id ≠ jid := fun h => hii h.symm
      left
      refine ⟨?_, rfl, ?_, rfl, Nat.le_refl _⟩
      · exact lookup_eraseK_ne hne' _
      · exact lookup_eraseK_ne hne' _
  | advance dt hca =>
    exact Or.inr (Or.inl ⟨dt, rfl, hca, rfl⟩)

/-! ### Evolution of one job's slice along a trace without operations on it -/

theorem terminalHold_step {id : JobId} {j : Job} {C : Nat} :
    ∀ s e s', TerminalHold id j C s → Step s e s' → Event.touches id e = false →
      TerminalHold id j C s' := by
  intro s e s' hp hs hok
  obtain ⟨hid, hb⟩ := hp
  rcases step_cases hs hid hok with
    ⟨hj, hto, hcu, hnow, hnext⟩ | ⟨dt, _, hca, rfl⟩ |
    ⟨_, d, hd, hdn, rfl⟩ | ⟨_, d, hd, hdn, rfl⟩
  · refine ⟨lt_of_lt_of_le hid hnext, ?_⟩
    rcases hb with ⟨h1, h2, h3, h4⟩ | ⟨h1, h2, h3, h4⟩
    · exact Or.inl ⟨hj.trans h1, hto.trans h2, hcu.trans h3, by rw [hnow]; exact h4⟩
    · exact Or.inr ⟨hj.trans h1, hto.trans h2, hcu.trans h3, by rw [hnow]; exact h4⟩
  · refine ⟨hid, ?_⟩
    rcases hb with ⟨h1, h2, h3, h4⟩ | ⟨h1, h2, h3, h4⟩
    · exact Or.inl ⟨h1, h2, h3, hca.2 _ (mem_of_lookup h3)⟩
    · exact Or.inr ⟨h1, h2, h3, le_trans h4 (Nat.le_add_right _ _)⟩
  · rcases hb with ⟨h1, h2, h3, h4⟩ | ⟨h1, h2, h3, h4⟩ <;>
      (rw [h2] at hd; exact absurd hd (by simp))
  · rcases hb with ⟨h1, h2, h3, h4⟩ | ⟨h1, h2, h3, h4⟩
    · rw [h3] at hd
      obtain rfl : C = d := by injection hd
      refine ⟨hid, Or.inr ⟨?_, h2, ?_, hdn⟩⟩
      · exact lookup_eraseK_self _ _
      · exact lookup_eraseK_self _ _
    · rw [h3] at hd
      exact absurd hd (by simp)

theorem terminalHold_trace {id : JobId} {j : Job} {C : Nat}
    {s s' : ManagerState} {es : List Event} (ht : Trace s es s')
    (hok : ∀ e ∈ es, Event.touches id e = false)
    (hp : TerminalHold id j C s) : TerminalHold id j C s' :=
  trace_inv terminalHold_step ht hok hp

theorem timeoutWatch_step {id : JobId} {D : Nat} :
    ∀ s e s', TimeoutWatch id D s → Step s e s' → Event.touches id e = false →
      TimeoutWatch id D s' := by
  intro s e s' hp hs hok
  obtain ⟨hid, hb⟩ := hp
  rcases step_cases hs hid hok with
    ⟨hj, hto, hcu, hnow, hnext⟩ | ⟨dt, _, hca, rfl⟩ |
    ⟨_, d, hd, hdn, rfl⟩ | ⟨_, d, hd, hdn, rfl⟩
  · refine ⟨lt_of_lt_of_le hid hnext, ?_⟩
    rcases hb with ⟨h1, h2, h3, h4⟩ | ⟨h1, h2, h3, h4, h5⟩ | ⟨h1, h2, h3, h4⟩
    · exact Or.inl ⟨hj ▸ h1, hto.trans h2, hcu.trans h3, by rw [hnow]; exact h4⟩
    · exact Or.inr (Or.inl ⟨hj ▸ h1, hto.trans h2, hcu.trans h3,
        by rw [hnow]; exact h4, by rw [hnow]; exact h5⟩)
    · exact Or.inr (Or.inr ⟨hj.trans h1, hto.trans h2, hcu.trans h3,
        by rw [hnow]; exact h4⟩)
  · refine ⟨hid, ?_⟩
    rcases hb with ⟨h1, h2, h3, h4⟩ | ⟨h1, h2, h3, h4, h5⟩ | ⟨h1, h2, h3, h4⟩
    · exact Or.inl ⟨h1, h2, h3, hca.1 _ (mem_of_lookup h2)⟩
    · exact Or.inr (Or.inl ⟨h1, h2, h3, le_trans h4 (Nat.le_add_right _ _),
        hca.2 _ (mem_of_lookup h3)⟩)
    · exact Or.inr (Or.inr ⟨h1, h2, h3, le_trans h4 (Nat.le_add_right _ _)⟩)
  · rcases hb with ⟨h1, h2, h3, h4⟩ | ⟨h1, h2, h3, h4, h5⟩ | ⟨h1, h2, h3, h4⟩
    · rw [h2] at hd
      obtain rfl : D = d := by injection hd
      have hnow : s.now = D := Nat.le_antisymm h4 hdn
      obtain ⟨j0, hj0⟩ := h1
      rw [fireTimeoutAct_known hj0]
      refine ⟨hid, Or.inr (Or.inl ⟨⟨_, lookup_setK_self _ _ _, rfl, rfl, ?_⟩,
        lookup_eraseK_self _ _, ?_, ?_, ?_⟩)⟩
      · rw [hnow]
      · rw [lookup_setK_self, hnow]
      · rw [hnow]
      · rw [hnow]
        exact Nat.le_add_right _ _
    · rw [h2] at hd
      exact absurd hd (by simp)
    · rw [h2] at hd
      exact absurd hd (by simp)
  · rcases hb with ⟨h1, h2, h3, h4⟩ | ⟨h1, h2, h3, h4, h5⟩ | ⟨h1, h2, h3, h4⟩
    · rw [h3] at hd
      exact absurd hd (by simp)
    · rw [h3] at hd
      obtain rfl : D + cleanupDelayMs = d := by injection hd
      refine ⟨hid, Or.inr (Or.inr ⟨?_, h2, ?_, hdn⟩)⟩
      · exact lookup_eraseK_self _ _
      · exact lookup_eraseK_self _ _
    · rw [h3] at hd
      exact absurd hd (by simp)

theorem timeoutWatch_trace {id : JobId} {D : Nat}
    {s s' : ManagerState} {es : List Event} (ht : Trace s es s')
    (hok : ∀ e ∈ es, Event.touches id e = false)
    (hp : TimeoutWatch id D s) : TimeoutWatch id D s' :=
  trace_inv timeoutWatch_step ht hok hp

/-! ### Reachability of the concrete example states -/

theorem reachable_exCreated : Reachable exCreated :=
  reachable_step reachable_init (Step.create initState "/uploads/test.pdf")

theorem reachable_exDone : Reachable exDone :=
  reachable_step reachable_exCreated (Step.update exCreated 0 .done none)

theorem reachable_exFailedNoErr : Reachable exFailedNoErr :=
  reachable_step reachable_exCreated (Step.update exCreated 0 .failed none)

theorem reachable_exProg : Reachable exProg :=
  reachable_step reachable_exCreated
    (Step.update exCreated 0 .processing (some 150))

/-! ### Counting lemmas for getJobCounts -/

theorem getJobCounts_go (l : List (JobId × Job)) (c : JobCounts) :
    l.foldl (fun c p => bumpStatus { c with total := c.total + 1 } p.2.status) c =
      ⟨c.total + l.length, c.queued + countStatus .queued l,
       c.processing + countStatus .processing l, c.done + countStatus .done l,
       c.failed + countStatus .failed l⟩ := by
  induction l generalizing c with
  | nil => simp [countStatus]
  | cons p t ih =>
    rw [List.foldl_cons, ih]
    cases hst : p.2.status <;>
      simp [bumpStatus, countStatus, List.countP_cons, hst, beq_iff_eq,
        JobCounts.mk.injEq] <;>
      omega

theorem length_countStatus (l : List (JobId × Job)) :
    l.length = countStatus .queued l + countStatus .processing l +
      countStatus .done l + countStatus .failed l := by
  induction l with
  | nil => rfl
  | cons p t ih =>
    cases hst : p.2.status <;>
      simp [countStatus, List.countP_cons, hst, beq_iff_eq] at ih ⊢ <;>
      omega

/-! ### Preservation of progress bounds -/

theorem progressBounds_step :
    ∀ s e s', ProgressBounds s → Step s e s' → progressOkEvent e →
      ProgressBounds s' := by
  intro s e s' hp hs hok
  cases hs with
  | create fp =>
    rw [createJob_snd]
    intro id j hj
    by_cases hii : id = s.nextId
    · subst hii
      rw [getJob, lookup_setK_self] at hj
      obtain rfl : _ = j := by injection hj
      exact ⟨le_refl 0, by norm_num⟩
    · rw [getJob, lookup_setK_ne hii] at hj
      exact hp id j hj
  | update jid st p =>
    cases hl : s.jobs.lookup jid with
    | none =>
      rw [updateJobStatus_unknown st p hl]
      exact hp
    | some job =>
      have hbound : 0 ≤ (applyProgress { job with status := st } p).progress ∧
          (applyProgress { job with status := st } p).progress ≤ 100 := by
        cases p with
        | none => exact hp jid job hl
        | some q => exact hok
      cases st with
      | processing =>
        rw [updateJobStatus_processing p hl]
        intro id j hj
        by_cases hii : id = jid
        · subst hii
          rw [getJob, lookup_setK_self] at hj
          obtain rfl : _ = j := by injection hj
          exact hbound
        · rw [getJob, lookup_setK_ne hii] at hj
          exact hp id j hj
      | queued =>
        rw [updateJobStatus_queued p hl]
        intro id j hj
        by_cases hii : id = jid
        · subst hii
          rw [getJob, lookup_setK_self] at hj
          obtain rfl : _ = j := by injection hj
          exact hbound
        · rw [getJob, lookup_setK_ne hii] at hj
          exact hp id j hj
      | done =>
        rw [updateJobStatus_done p hl]
        intro id j hj
        by_cases hii : id = jid
        · subst hii
          rw [getJob, lookup_setK_self] at hj
          obtain rfl : _ = j := by injection hj
          exact hbound
        · rw [getJob, lookup_setK_ne hii] at hj
          exact hp id j hj
      | failed =>
        rw [updateJobStatus_failed p hl]
        intro id j hj
        by_cases hii : id = jid
        · subst hii
          rw [getJob, lookup_setK_self] at hj
          obtain rfl : _ = j := by injection hj
          exact hbound
        · rw [getJob, lookup_setK_ne hii] at hj
          exact hp id j hj
  | fail jid m =>
    cases hl : s.jobs.lookup jid with
    | none =>
      rw [failJob_unknown m hl]
      exact hp
    | some job =>
      rw [failJob_known m hl]
      intro id j hj
      by_cases hii : id = jid
      · subst hii
        rw [getJob, lookup_setK_self] at hj
        obtain rfl : _ = j := by injection hj
        exact hp _ job hl
      · rw [getJob, lookup_setK_ne hii] at hj
        exact hp id j hj
  | cleanup jid =>
    cases hl : s.jobs.lookup jid with
    | none =>
      rw [cleanupJob_unknown hl]
      exact hp
    | some job =>
      by_cases ht : TerminalStatus job.status
      · rw [cleanupJob_terminal hl ht]
        intro id j hj
        by_cases hii : id = jid
        · subst hii
          rw [getJob, lookup_eraseK_self] at hj
          exact absurd hj (by simp)
        · rw [getJob, lookup_eraseK_ne hii] at hj
          exact hp id j hj
      · rw [cleanupJob_active hl ht]
        exact hp
  | fireTimeout jid d hd hdn =>
    cases hl : s.jobs.lookup jid with
    | none =>
      rw [fireTimeoutAct_unknown hl]
      exact hp
    | some job =>
      rw [fireTimeoutAct_known hl]
      intro id j hj
      by_cases hii : id = jid
      · subst hii
        rw [getJob, lookup_setK_self] at hj
        obtain rfl : _ = j := by injection hj
        exact hp _ job hl
      · rw [getJob, lookup_setK_ne hii] at hj
        exact hp id j hj
  | fireCleanup jid d hd hdn =>
    intro id j hj
    by_cases hii : id = jid
    · subst hii
      rw [getJob, show (fireCleanupAct id s).jobs = eraseK id s.jobs from rfl,
        lookup_eraseK_self] at hj
      exact absurd hj (by simp)
    · rw [getJob, show (fireCleanupAct jid s).jobs = eraseK jid s.jobs from rfl,
        lookup_eraseK_ne hii] at hj
      exact hp id j hj
  | advance dt hca =>
    exact hp

/-! ### Claim C1: terminal states and absorption -/

/-- C1, counterexample: terminal states are not absorbing.  In the reachable
state `exDone` job 0 has status `done`, yet a subsequent `updateJobStatus`
call succeeds and moves its status back to `queued`, contradicting the claim
that no operation changes a terminal job's status. -/
theorem terminal_absorbing_cex :
    Reachable exDone ∧
    (getJob exDone 0).map Job.status = some .done ∧
    (updateJobStatus 0 .queued none exDone).1 = true ∧
    (getJob (updateJobStatus 0 .queued none exDone).2 0).map Job.status =
      some .queued :=
  ⟨reachable_exDone, by decide, by decide, by decide⟩

/-- C1, amended: timer callbacks never move a job out of `done` or `failed`.
In every reachable state a terminal job has no pending timeout timer, so no
timeout-firing step exists for it (and a cleanup firing only removes the
record); explicit `updateJobStatus` and `failJob` calls, however, can move a
job out of a terminal status. -/
theorem terminal_timer_absorbing (s : ManagerState) (id : JobId) (j : Job)
    (hr : Reachable s) (hj : getJob s id = some j)
    (ht : j.status = .done ∨ j.status = .failed) :
    s.timeouts.lookup id = none ∧ ∀ s', ¬ Step s (.fireTimeout id) s' := by
  have hinv := reachable_stateInv hr
  have hn := hinv.terminalNoTimeout id j hj ht
  refine ⟨hn, fun s' hs => ?_⟩
  have hex : ∃ d, s.timeouts.lookup id = some d := by
    cases hs with
    | fireTimeout d hd hdn => exact ⟨_, hdn⟩
  obtain ⟨d, hdl⟩ := hex
  rw [hn] at hdl
  exact absurd hdl (by simp)

/-- C1, witness: the amended theorem applied to the reachable state `exDone`
and its terminal job 0. -/
theorem terminal_timer_absorbing_witness :
    exDone.timeouts.lookup 0 = none ∧ ∀ s', ¬ Step exDone (.fireTimeout 0) s' :=
  terminal_timer_absorbing exDone 0 jDone0 reachable_exDone (by decide)
    (Or.inl rfl)

/-! ### Claim C2: terminal stamping -/

/-- C2, counterexample: in the reachable state `exFailedNoErr`, job 0 has
status `failed` but its `error` field is unset, because `updateJobStatus`
never writes `error`; this contradicts "error is set if and only if the
status is failed". -/
theorem terminal_stamping_cex :
    Reachable exFailedNoErr ∧
    (getJob exFailedNoErr 0).map Job.status = some .failed ∧
    (getJob exFailedNoErr 0).map Job.error = some none :=
  ⟨reachable_exFailedNoErr, by decide, by decide⟩

/-- C2, amended: in every reachable state, `completedAt` is set whenever a
job's status is `done` or `failed`, and whenever its `error` field is set.
The two "only if" directions of the claim fail: `updateJobStatus` can enter
`failed` without recording an error, and can move a stamped job back to a
non-terminal status without clearing `error` or `completedAt`. -/
theorem terminal_stamping_amended (s : ManagerState) (id : JobId) (j : Job)
    (hr : Reachable s) (hj : getJob s id = some j) :
    ((j.status = .done ∨ j.status = .failed) → j.completedAt.isSome) ∧
    (j.error.isSome → j.completedAt.isSome) := by
  have hinv := reachable_stateInv hr
  constructor
  · intro ht
    obtain ⟨t, hct, _⟩ := hinv.terminalCleanup id j hj ht
    rw [hct]
    rfl
  · exact hinv.errorCompleted id j hj

/-- C2, witness: the amended theorem applied to the reachable state `exDone`
and its job 0, whose `completedAt` stamp is `some 0`. -/
theorem terminal_stamping_amended_witness :
    ((jDone0.status = .done ∨ jDone0.status = .failed) →
      jDone0.completedAt.isSome) ∧
    (jDone0.error.isSome → jDone0.completedAt.isSome) :=
  terminal_stamping_amended exDone 0 jDone0 reachable_exDone (by decide)

/-! ### Claim C3: timeout firing -/

/-- C3, counterexample: a job moved to `processing` that receives no further
status update need not end up `failed` after the timeout window.  Starting
from a fresh manager, job 0 is completed at time 0 (arming a cleanup timer
due at 300000), then moved back to `processing` at time 250000.  The update
succeeds, and afterwards only clock advances and the manager's own timer
firings occur, yet at time 370000 — exactly one timeout window after the
`processing` update — the job is gone (`getJob` returns `none`), not
`failed`: the stale cleanup timer deleted it at 300000 and the timeout
callback then found nothing to fail. -/
theorem timeout_firing_cex :
    Trace initState exStaleEvents exStale6 ∧
    (getJob exStale1 0).map Job.status = some .done ∧
    (updateJobStatus 0 .processing none exStale1).1 = true ∧
    exStale2.now = 250000 ∧
    (∀ e ∈ [Event.advance 50000, Event.fireCleanup 0, Event.advance 70000,
      Event.fireTimeout 0], Event.touches 0 e = false) ∧
    exStale6.now = exStale2.now + defaultTimeoutMs ∧
    getJob exStale6 0 = none := by
  refine ⟨?_, by decide, by decide, by decide, by decide, by decide, by decide⟩
  exact .cons (Step.create initState "/uploads/test.pdf")
    (.cons (Step.update exCreated 0 .done none)
      (.cons (Step.advance exDone 250000 (by decide))
        (.cons (Step.update exStale1 0 .processing none)
          (.cons (Step.advance exStale2 50000 (by decide))
            (.cons (Step.fireCleanup exStale3 0 300000 (by decide) (by decide))
              (.cons (Step.advance exStale4 70000 (by decide))
                (.cons (Step.fireTimeout exStale5 0 370000 (by decide)
                    (by decide))
                  (.nil _))))))))

/-- C3, amended: for a registered job with no pending cleanup timer (in
particular any job that has never reached a terminal state), moving it to
`processing` and then letting only non-caller events happen makes the job
`failed` with the timeout message — which contains "120" — at every instant
after the timeout window elapses and before the subsequent cleanup delay
passes.  The no-pending-cleanup proviso is forced by the counterexample: a
stale cleanup timer can delete the job before its timeout fires. -/
theorem timeout_firing_amended (s s' : ManagerState) (id : JobId) (j : Job)
    (p : Option Int) (es : List Event)
    (hr : Reachable s) (hj : getJob s id = some j)
    (hc : s.cleanupTimers.lookup id = none)
    (ht : Trace (updateJobStatus id .processing p s).2 es s')
    (hok : ∀ e ∈ es, Event.touches id e = false)
    (h1 : s.now + defaultTimeoutMs < s'.now)
    (h2 : s'.now < s.now + defaultTimeoutMs + cleanupDelayMs) :
    ∃ j', getJob s' id = some j' ∧ j'.status = .failed ∧
      j'.error = some timeoutMessage ∧
      ∃ a b, timeoutMessage = a ++ "120" ++ b := by
  have hinv := reachable_stateInv hr
  have hid : id < s.nextId := hinv.jobsBelow _ (mem_of_lookup hj)
  have hstart : TimeoutWatch id (s.now + defaultTimeoutMs)
      (updateJobStatus id .processing p s).2 := by
    rw [updateJobStatus_processing p hj]
    exact ⟨hid, Or.inl ⟨⟨_, lookup_setK_self _ _ _⟩, lookup_setK_self _ _ _,
      hc, Nat.le_add_right _ _⟩⟩
  obtain ⟨_, hb⟩ := timeoutWatch_trace ht hok hstart
  rcases hb with ⟨_, _, _, h4⟩ |
    ⟨⟨j', hj', hst, herr, _⟩, _, _, _, _⟩ | ⟨_, _, _, h4⟩
  · omega
  · exact ⟨j', hj', hst, herr, "Job timed out after ", " seconds", by decide⟩
  · omega

/-- C3, witness: the amended theorem on a fresh job moved to `processing` at
time 0, with the timeout firing at 120000 and one further millisecond of
clock advance. -/
theorem timeout_firing_amended_witness :
    ∃ j', getJob exProcTimedOut 0 = some j' ∧ j'.status = .failed ∧
      j'.error = some timeoutMessage ∧
      ∃ a b, timeoutMessage = a ++ "120" ++ b :=
  timeout_firing_amended exCreated exProcTimedOut 0
    ⟨0, .queued, "/uploads/test.pdf", 0, 0, none, none⟩ none
    [.advance 120000, .fireTimeout 0, .advance 1]
    reachable_exCreated (by decide) (by decide)
    (.cons (Step.advance exProc 120000 (by decide))
      (.cons (Step.fireTimeout { exProc with now := exProc.now + 120000 } 0
          120000 (by decide) (by decide))
        (.cons (Step.advance
            (fireTimeoutAct 0 { exProc with now := exProc.now + 120000 }) 1
            (by decide))
          (.nil _))))
    (by decide) (by decide) (by decide)

/-! ### Claim C4: timeout cancellation -/

/-- C4: a job moved to `processing` and then — before the timeout window
elapses — updated to `done` stays `done`: entering the terminal state clears
the timeout timer, so no later timer firing or clock advance (with no further
caller operation on the job) ever overwrites it to `failed`; while the job
remains registered its status is `done`, and it remains registered at least
until the cleanup delay after the `done` update. -/
theorem timeout_cancellation (s s2 s4 : ManagerState) (id : JobId)
    (j j1 : Job) (p1 p2 : Option Int) (es1 es2 : List Event)
    (hr : Reachable s) (hj : getJob s id = some j)
    (ht1 : Trace (updateJobStatus id .processing p1 s).2 es1 s2)
    (hok1 : ∀ e ∈ es1, Event.touches id e = false)
    (hj1 : getJob s2 id = some j1)
    (hbefore : s2.now < s.now + defaultTimeoutMs)
    (ht2 : Trace (updateJobStatus id .done p2 s2).2 es2 s4)
    (hok2 : ∀ e ∈ es2, Event.touches id e = false) :
    (∀ j', getJob s4 id = some j' → j'.status = .done) ∧
    (s4.now < s2.now + cleanupDelayMs →
      ∃ j', getJob s4 id = some j' ∧ j'.status = .done) := by
  have hr1 : Reachable (updateJobStatus id .processing p1 s).2 :=
    reachable_step hr (Step.update s id .processing p1)
  have hr2 : Reachable s2 := reachable_trace hr1 ht1
  have hinv2 := reachable_stateInv hr2
  have hid2 : id < s2.nextId := hinv2.jobsBelow _ (mem_of_lookup hj1)
  have hstart : TerminalHold id
      { applyProgress { j1 with status := JobStatus.done } p2 with
        completedAt := some s2.now }
      (s2.now + cleanupDelayMs) (updateJobStatus id .done p2 s2).2 := by
    rw [updateJobStatus_done p2 hj1]
    exact ⟨hid2, Or.inl ⟨lookup_setK_self _ _ _, lookup_eraseK_self _ _,
      lookup_setK_self _ _ _, Nat.le_add_right _ _⟩⟩
  obtain ⟨_, hb⟩ := terminalHold_trace ht2 hok2 hstart
  have hst : ({ applyProgress { j1 with status := JobStatus.done } p2 with
      completedAt := some s2.now } : Job).status = .done := by
    show (applyProgress { j1 with status := JobStatus.done } p2).status = _
    rw [applyProgress_status]
  constructor
  · intro j' hj'
    rcases hb with ⟨h1, _, _, _⟩ | ⟨h1, _, _, _⟩
    · rw [h1] at hj'
      obtain rfl : _ = j' := by injection hj'
      exact hst
    · rw [h1] at hj'
      exact absurd hj' (by simp)
  · intro hlt
    rcases hb with ⟨h1, _, _, _⟩ | ⟨_, _, _, h4⟩
    · exact ⟨_, h1, hst⟩
    · omega

/-- C4, witness: a fresh job moved to `processing` at time 0, to `done` at
time 60000, then the clock advanced to 160000 — past the full original
timeout window — with the job still registered and `done`. -/
theorem timeout_cancellation_witness :
    ∃ j', getJob exDoneLate 0 = some j' ∧ j'.status = .done :=
  (timeout_cancellation exCreated exProcMid exDoneLate 0
    ⟨0, .queued, "/uploads/test.pdf", 0, 0, none, none⟩
    ⟨0, .processing, "/uploads/test.pdf", 0, 0, none, none⟩
    none none [.advance 60000] [.advance 100000]
    reachable_exCreated (by decide)
    (.cons (Step.advance exProc 60000 (by decide)) (.nil _))
    (by decide) (by decide) (by decide)
    (.cons (Step.advance exDoneMid 100000 (by decide)) (.nil _))
    (by decide)).2 (by decide)

/-! ### Claim C5: cleanup timing -/

/-- C5: once a job is terminal (with `completedAt = some t`), and no further
caller operation targets it, `getJob` still returns the unchanged record at
every instant before `t + cleanupDelayMs`, and returns `none` at every
instant after that deadline has passed. -/
theorem cleanup_timing (s s' : ManagerState) (id : JobId) (j : Job) (t : Nat)
    (es : List Event)
    (hr : Reachable s) (hj : getJob s id = some j)
    (hts : j.status = .done ∨ j.status = .failed)
    (hca : j.completedAt = some t)
    (ht : Trace s es s') (hok : ∀ e ∈ es, Event.touches id e = false) :
    (s'.now < t + cleanupDelayMs → getJob s' id = some j) ∧
    (t + cleanupDelayMs < s'.now → getJob s' id = none) := by
  have hinv := reachable_stateInv hr
  have hid : id < s.nextId := hinv.jobsBelow _ (mem_of_lookup hj)
  obtain ⟨t', hca', hcl⟩ := hinv.terminalCleanup id j hj hts
  obtain rfl : t = t' := by
    rw [hca] at hca'
    injection hca'
  have hto := hinv.terminalNoTimeout id j hj hts
  have hge : s.now ≤ t + cleanupDelayMs := hinv.cleanupsGE _ (mem_of_lookup hcl)
  obtain ⟨_, hb⟩ :=
    terminalHold_trace ht hok (⟨hid, Or.inl ⟨hj, hto, hcl, hge⟩⟩ :
      TerminalHold id j (t + cleanupDelayMs) s)
  constructor
  · intro hlt
    rcases hb with ⟨h1, _, _, _⟩ | ⟨_, _, _, h4⟩
    · exact h1
    · omega
  · intro hgt
    rcases hb with ⟨_, _, _, h4⟩ | ⟨h1, _, _, _⟩
    · omega
    · exact h1

/-- C5, witness: the terminal job of `exDone` is still retrievable unchanged
after the clock advances to 100000, before the 300000 cleanup deadline. -/
theorem cleanup_timing_witness :
    getJob exDoneWait 0 = some jDone0 :=
  (cleanup_timing exDone exDoneWait 0 jDone0 0 [.advance 100000]
    reachable_exDone (by decide) (Or.inl rfl) (by decide)
    (.cons (Step.advance exDone 100000 (by decide)) (.nil _))
    (by decide)).1 (by decide)

/-! ### Claim C8: the progress range -/

/-- C8, counterexample: the manager does not clamp progress.  Passing the
out-of-range progress argument 150 to `updateJobStatus` yields a reachable
state whose registered job has progress 150, outside 0..100. -/
theorem progress_range_cex :
    Reachable exProg ∧
    (getJob exProg 0).map Job.progress = some 150 ∧
    ¬ ((150 : Int) ≤ 100) :=
  ⟨reachable_exProg, by decide, by decide⟩

/-- C8, amended: progress stays within 0..100 exactly when the callers keep
it there — a job starts at progress 0 and the manager otherwise stores the
caller's progress arguments unchecked, so along any run from a fresh manager
in which every supplied progress argument lies within 0..100, every
registered job's progress lies within 0..100. -/
theorem progress_range_amended (es : List Event) (s : ManagerState)
    (ht : Trace initState es s) (hok : ∀ e ∈ es, progressOkEvent e)
    (id : JobId) (j : Job) (hj : getJob s id = some j) :
    0 ≤ j.progress ∧ j.progress ≤ 100 := by
  have hb : ProgressBounds s :=
    trace_inv progressBounds_step ht hok
      (by
        intro id j hj
        simp [getJob, initState, List.lookup] at hj)
  exact hb id j hj

/-- C8, witness: after creating a job and updating it with the in-range
progress argument 50, the stored progress 50 lies within the bounds. -/
theorem progress_range_amended_witness :
    0 ≤ ((⟨0, .processing, "/uploads/test.pdf", 0, 50, none, none⟩ :
      Job)).progress ∧
    ((⟨0, .processing, "/uploads/test.pdf", 0, 50, none, none⟩ :
      Job)).progress ≤ 100 :=
  progress_range_amended
    [.create "/uploads/test.pdf", .update 0 .processing (some 50)] exProg50
    (.cons (Step.create initState "/uploads/test.pdf")
      (.cons (Step.update exCreated 0 .processing (some 50)) (.nil _)))
    (by
      intro e he
      simp only [List.mem_cons, List.not_mem_nil, or_false] at he
      rcases he with rfl | rfl
      · trivial
      · exact ⟨by decide, by decide⟩)
    0 ⟨0, .processing, "/uploads/test.pdf", 0, 50, none, none⟩ (by decide)

/-! ### Claim C6: the manual cleanup guard -/

/-- C6: `cleanupJob` on a registered job that is `queued` or `processing`
returns `false` and leaves the whole state unchanged; on a registered job
that is `done` or `failed` it returns `true`, removes the job from the
registry, and cancels the job's cleanup timer (and its timeout timer). -/
theorem cleanupJob_guard (s : ManagerState) (id : JobId) (job : Job)
    (h : getJob s id = some job) :
    ((job.status = .queued ∨ job.status = .processing) →
      cleanupJob id s = (false, s)) ∧
    ((job.status = .done ∨ job.status = .failed) →
      (cleanupJob id s).1 = true ∧
      getJob (cleanupJob id s).2 id = none ∧
      (cleanupJob id s).2.cleanupTimers.lookup id = none ∧
      (cleanupJob id s).2.timeouts.lookup id = none) := by
  constructor
  · intro hqp
    exact cleanupJob_active h
      (by rcases hqp with h1 | h1 <;> simp [TerminalStatus, h1])
  · intro ht
    rw [cleanupJob_terminal h ht]
    exact ⟨rfl, lookup_eraseK_self _ _, lookup_eraseK_self _ _,
      lookup_eraseK_self _ _⟩

/-- C6, witness: `cleanupJob` applied to the terminal job of `exDone`
removes it and cancels its timers. -/
theorem cleanupJob_guard_witness :
    (cleanupJob 0 exDone).1 = true ∧
    getJob (cleanupJob 0 exDone).2 0 = none ∧
    (cleanupJob 0 exDone).2.cleanupTimers.lookup 0 = none ∧
    (cleanupJob 0 exDone).2.timeouts.lookup 0 = none :=
  (cleanupJob_guard exDone 0 jDone0 (by decide)).2 (Or.inl rfl)

/-! ### Claim C7: unknown-id safety -/

/-- C7: on an id absent from the registry, `updateJobStatus`, `failJob` and
`cleanupJob` all return `false` and leave the state — the registry and both
timer maps — completely unchanged, so no phantom record appears.  The
embedded operations are total functions, so no exception is possible. -/
theorem unknownId_safe (s : ManagerState) (id : JobId) (st : JobStatus)
    (p : Option Int) (m : String) (h : getJob s id = none) :
    updateJobStatus id st p s = (false, s) ∧
    failJob id m s = (false, s) ∧
    cleanupJob id s = (false, s) :=
  ⟨updateJobStatus_unknown st p h, failJob_unknown m h, cleanupJob_unknown h⟩

/-- C7, witness: the three operations applied to the unknown id 5 of the
fresh manager state. -/
theorem unknownId_safe_witness :
    updateJobStatus 5 .done none initState = (false, initState) ∧
    failJob 5 "x" initState = (false, initState) ∧
    cleanupJob 5 initState = (false, initState) :=
  unknownId_safe initState 5 .done none "x" (by decide)

/-! ### Claim C9: the creation postcondition -/

/-- C9: `createJob` returns an id rendering to a `job_`-prefixed string, and
the new state holds, under that id, a job with status `queued`, progress 0,
the given file path, no `error` and no `completedAt`; both timer maps are
untouched and hold no entry for the fresh id. -/
theorem createJob_spec (s : ManagerState) (fp : String) (hr : Reachable s) :
    (∃ r, renderJobId (createJob fp s).1 = "job_" ++ r) ∧
    getJob (createJob fp s).2 (createJob fp s).1 =
      some { id := (createJob fp s).1, status := .queued, filePath := fp,
             createdAt := s.now, progress := 0, error := none,
             completedAt := none } ∧
    (createJob fp s).2.timeouts = s.timeouts ∧
    (createJob fp s).2.cleanupTimers = s.cleanupTimers ∧
    (createJob fp s).2.timeouts.lookup (createJob fp s).1 = none ∧
    (createJob fp s).2.cleanupTimers.lookup (createJob fp s).1 = none := by
  have hinv := reachable_stateInv hr
  refine ⟨⟨toString (createJob fp s).1, rfl⟩, ?_, rfl, rfl, ?_, ?_⟩
  · show (createJob fp s).2.jobs.lookup (createJob fp s).1 = _
    rw [createJob_snd, createJob_fst]
    exact lookup_setK_self _ _ _
  · exact lookup_keysBelow_none hinv.timeoutsBelow
  · exact lookup_keysBelow_none hinv.cleanupsBelow

/-- C9, witness: the creation postcondition at the fresh manager state with
the spec's example source reference. -/
theorem createJob_spec_witness :
    (∃ r, renderJobId (createJob "/uploads/test.pdf" initState).1 =
      "job_" ++ r) ∧
    getJob (createJob "/uploads/test.pdf" initState).2
        (createJob "/uploads/test.pdf" initState).1 =
      some { id := (createJob "/uploads/test.pdf" initState).1,
             status := .queued, filePath := "/uploads/test.pdf",
             createdAt := initState.now, progress := 0, error := none,
             completedAt := none } ∧
    (createJob "/uploads/test.pdf" initState).2.timeouts =
      initState.timeouts ∧
    (createJob "/uploads/test.pdf" initState).2.cleanupTimers =
      initState.cleanupTimers ∧
    (createJob "/uploads/test.pdf" initState).2.timeouts.lookup
      (createJob "/uploads/test.pdf" initState).1 = none ∧
    (createJob "/uploads/test.pdf" initState).2.cleanupTimers.lookup
      (createJob "/uploads/test.pdf" initState).1 = none :=
  createJob_spec initState "/uploads/test.pdf" reachable_init

/-! ### Claim C10: consistency of getJobCounts -/

/-- C10: in any manager state, `getJobCounts` reports a `total` equal to the
number of registered jobs, each per-status field counts exactly the jobs of
that status, and `total` equals the sum of the four per-status fields.  The
source method only reads the maps, so it is embedded as a pure function and
cannot modify the registry or the timer maps. -/
theorem getJobCounts_spec (s : ManagerState) :
    (getJobCounts s).total = s.jobs.length ∧
    (getJobCounts s).queued = countStatus .queued s.jobs ∧
    (getJobCounts s).processing = countStatus .processing s.jobs ∧
    (getJobCounts s).done = countStatus .done s.jobs ∧
    (getJobCounts s).failed = countStatus .failed s.jobs ∧
    (getJobCounts s).total = (getJobCounts s).queued +
      (getJobCounts s).processing + (getJobCounts s).done +
      (getJobCounts s).failed := by
  have h : getJobCounts s =
      ⟨0 + s.jobs.length, 0 + countStatus .queued s.jobs,
       0 + countStatus .processing s.jobs, 0 + countStatus .done s.jobs,
       0 + countStatus .failed s.jobs⟩ :=
    getJobCounts_go s.jobs ⟨0, 0, 0, 0, 0⟩
  rw [h]
  have hlen := length_countStatus s.jobs
  refine ⟨by simp, by simp, by simp, by simp, by simp, by simp; omega⟩

end JobManager
